import Mathlib

/-
Verification development for the name-matching and recipe-generation services.

Shallow embedding conventions:
* Python floats are modelled as rationals (ℚ); numpy elementwise arithmetic on
  equal-length arrays becomes List.zipWith.
* Core arithmetic on ℚ (Rat.add, Rat.mul, ...) is irreducible for the kernel, so
  the embedding computes with mkRat-based operations ratAdd, ratMul, ratMulNat,
  ratDivNat and an integer-arithmetic rounder rint; the lemmas ratAdd_eq,
  ratMul_eq, ratMulNat_eq, ratDivNat_eq and rint_spec prove that these denote
  ordinary rational addition, multiplication, division and round-half-even, so
  every theorem below is stated and proved with the ordinary operations while
  concrete instances still evaluate inside the kernel.
* The sentence-transformer encoder and the cosine-similarity kernel are external
  collaborators: they appear as function parameters (encode, cos).  The
  fuzzywuzzy ratio is likewise an external pure function parameter (fuzz); the
  service divides its value by 100 itself (name_matching.py line 109).
* numpy argsort is modelled as a stable ascending sort of the index list,
  realised by sorting indices with the lexicographic key (score, index).
* Python string operations str.split, str.strip, str.lower and substring
  membership are modelled by structurally recursive functions on the character
  list of the string.
* Python exceptions are modelled with Except; a dict return value becomes a
  structure.
-/

namespace RatOps

/-- Kernel-computable product of two rationals; ratMul_eq proves it equals
ordinary multiplication on ℚ. -/
def ratMul (a b : ℚ) : ℚ := mkRat (a.num * b.num) (a.den * b.den)

/-- Kernel-computable sum of two rationals; ratAdd_eq proves it equals ordinary
addition on ℚ. -/
def ratAdd (a b : ℚ) : ℚ := mkRat (a.num * b.den + b.num * a.den) (a.den * b.den)

/-- Kernel-computable product of a rational by a natural number; ratMulNat_eq
proves it equals ordinary multiplication on ℚ. -/
def ratMulNat (a : ℚ) (n : ℕ) : ℚ := mkRat (a.num * n) a.den

/-- Kernel-computable quotient of a rational by a natural number; ratDivNat_eq
proves it equals ordinary division on ℚ. -/
def ratDivNat (a : ℚ) (n : ℕ) : ℚ := mkRat a.num (a.den * n)

/-- Round a rational to the nearest integer, halves to even — the IEEE-754 /
Python-3 round-half-even behaviour, written with integer arithmetic so that it
evaluates in the kernel; rint_spec restates it through the fractional part. -/
def rint (q : ℚ) : ℤ :=
  if 2 * (q.num - Int.fdiv q.num q.den * q.den) < (q.den : ℤ) then
    Int.fdiv q.num q.den
  else if (q.den : ℤ) < 2 * (q.num - Int.fdiv q.num q.den * q.den) then
    Int.fdiv q.num q.den + 1
  else if Int.fdiv q.num q.den % 2 = 0 then Int.fdiv q.num q.den
  else Int.fdiv q.num q.den + 1

end RatOps

namespace NameMatching

open RatOps

/-- One entry of the all_matches list built in find_similar_names
(name_matching.py lines 120-125). -/
structure NMatch where
  name : String
  score : ℚ
  semantic_score : ℚ
  fuzzy_score : ℚ
  deriving DecidableEq, Repr

/-- The best_match dict (name_matching.py line 128). -/
structure BestMatch where
  name : String
  score : ℚ
  deriving DecidableEq, Repr

/-- The dict returned by find_similar_names (name_matching.py line 130). -/
structure RankedResponse where
  best_match : BestMatch
  all_matches : List NMatch
  deriving DecidableEq, Repr

/-- The attributes of NameMatcher that find_similar_names reads: the catalog
self.names and the precomputed tensor self.name_embeddings (one embedding vector
per name).  Embedding vectors are lists of rationals. -/
structure MatcherState where
  names : List String
  name_embeddings : List (List ℚ)
  deriving DecidableEq, Repr

/-- The constructor work relevant to matching (name_matching.py lines 19-29):
store the catalog and precompute one embedding per name with the encoder. -/
def matcherInit (encode : String → List ℚ) (names : List String) : MatcherState :=
  ⟨names, names.map encode⟩

/-- Python str.lower, on the character list of the string (ASCII case folding,
which covers every string the services handle). -/
def pyLower (s : String) : String := String.mk (s.toList.map Char.toLower)

/-- Python round(x, 3), on rationals. -/
def round3 (q : ℚ) : ℚ := mkRat (rint (ratMulNat q 1000)) 1000

/-- Lines 103-105: cosine similarity of the query embedding against every
precomputed name embedding. -/
def semantic_scores (encode : String → List ℚ) (cos : List ℚ → List ℚ → ℚ)
    (s : MatcherState) (input_name : String) : List ℚ :=
  s.name_embeddings.map (cos (encode input_name))

/-- Lines 107-112: fuzz.ratio of the lower-cased query against each lower-cased
name, divided by 100. -/
def fuzzy_scores (fuzz : String → String → ℚ) (s : MatcherState)
    (input_name : String) : List ℚ :=
  s.names.map (fun n => ratDivNat (fuzz (pyLower input_name) (pyLower n)) 100)

/-- Line 114: combined = 0.6 * semantic + 0.4 * fuzzy, elementwise. -/
def combined_scores (encode : String → List ℚ) (cos : List ℚ → List ℚ → ℚ)
    (fuzz : String → String → ℚ) (s : MatcherState) (input_name : String) : List ℚ :=
  List.zipWith (fun a b => ratAdd (ratMul (mkRat 6 10) a) (ratMul (mkRat 4 10) b))
    (semantic_scores encode cos s input_name) (fuzzy_scores fuzz s input_name)

/-- numpy argsort on a score list: index list sorted ascending by score, stable,
i.e. equal scores keep ascending index order; realised by sorting indices with
the lexicographic key (score, index). -/
def argsort (scores : List ℚ) : List ℕ :=
  (List.range scores.length).insertionSort (fun i j =>
    scores.getD i 0 < scores.getD j 0 ∨ (scores.getD i 0 = scores.getD j 0 ∧ i ≤ j))

/-- Line 116: sorted_indices = argsort(combined_scores)[::-1]. -/
def sorted_indices (encode : String → List ℚ) (cos : List ℚ → List ℚ → ℚ)
    (fuzz : String → String → ℚ) (s : MatcherState) (input_name : String) : List ℕ :=
  (argsort (combined_scores encode cos fuzz s input_name)).reverse

/-- Lines 120-125: the match dict built for one catalog index. -/
def match_at (encode : String → List ℚ) (cos : List ℚ → List ℚ → ℚ)
    (fuzz : String → String → ℚ) (s : MatcherState) (input_name : String)
    (idx : ℕ) : NMatch :=
  ⟨s.names.getD idx "",
   round3 ((combined_scores encode cos fuzz s input_name).getD idx 0),
   round3 ((semantic_scores encode cos s input_name).getD idx 0),
   round3 ((fuzzy_scores fuzz s input_name).getD idx 0)⟩

/-- Lines 118-126: all_matches = the match dicts of the first top_k sorted indices. -/
def all_matches_of (encode : String → List ℚ) (cos : List ℚ → List ℚ → ℚ)
    (fuzz : String → String → ℚ) (s : MatcherState) (input_name : String)
    (top_k : ℕ) : List NMatch :=
  ((sorted_indices encode cos fuzz s input_name).take top_k).map
    (match_at encode cos fuzz s input_name)

/-- Lines 100-130: find_similar_names.  Accessing all_matches[0] at line 128
raises IndexError when all_matches is empty, modelled by the none result. -/
def find_similar_names (encode : String → List ℚ) (cos : List ℚ → List ℚ → ℚ)
    (fuzz : String → String → ℚ) (s : MatcherState) (input_name : String)
    (top_k : ℕ) : Option RankedResponse :=
  match all_matches_of encode cos fuzz s input_name top_k with
  | [] => none
  | m :: rest => some ⟨⟨m.name, m.score⟩, m :: rest⟩

/-- The method viewed as a state transformer on the matcher object: it reads
self.names, self.name_embeddings and self.model and assigns no attribute, so the
state it leaves is exactly the state it received. -/
def find_similar_names_st (encode : String → List ℚ) (cos : List ℚ → List ℚ → ℚ)
    (fuzz : String → String → ℚ) (s : MatcherState) (input_name : String)
    (top_k : ℕ) : Option RankedResponse × MatcherState :=
  (find_similar_names encode cos fuzz s input_name top_k, s)

/-- A collaborator instance for concrete runs: the encoder returning the empty
vector. -/
def encZ : String → List ℚ := fun _ => []

/-- A collaborator instance for concrete runs: cosine similarity constantly
one half. -/
def cosHalf : List ℚ → List ℚ → ℚ := fun _ _ => mkRat 1 2

/-- A collaborator instance for concrete runs: fuzz ratio constantly 50. -/
def fuzzHalf : String → String → ℚ := fun _ _ => 50

/-- A two-name catalog state in which every candidate receives the same
combined score. -/
def tieState : MatcherState := matcherInit encZ ["Ann", "Bob"]

/-- The response find_similar_names produces on tieState for query Ann. -/
def tieResponse : RankedResponse :=
  ⟨⟨"Bob", mkRat 1 2⟩,
   [⟨"Bob", mkRat 1 2, mkRat 1 2, mkRat 1 2⟩,
    ⟨"Ann", mkRat 1 2, mkRat 1 2, mkRat 1 2⟩]⟩

end NameMatching

namespace RecipeBot

/-- An uncaught Python exception escaping generate_recipe. -/
inductive PyErr where
  | attributeError (attr : String)
  deriving DecidableEq, Repr

/-- The outcome dict of generate_recipe (recipe_bot.py lines 116-128, 134-139). -/
structure Outcome where
  success : Bool
  ingredients : String
  recipe : Option String
  error : Option String
  deriving DecidableEq, Repr

/-- Python substring membership: pat occurs contiguously in the haystack. -/
def occursIn (pat : List Char) : List Char → Bool
  | [] => pat.isEmpty
  | c :: rest => pat.isPrefixOf (c :: rest) || occursIn pat rest

/-- String-level wrapper for occursIn. -/
def strContains (hay pat : String) : Bool := occursIn pat.toList hay.toList

/-- Python str.lower, ASCII case folding (same model as NameMatching.pyLower). -/
def pyLower (s : String) : String := String.mk (s.toList.map Char.toLower)

/-- Python str.strip with no argument: drop whitespace from both ends. -/
def pyStrip (l : List Char) : List Char :=
  ((l.dropWhile Char.isWhitespace).reverse.dropWhile Char.isWhitespace).reverse

/-- Python s.split for the single-comma separator: cut the character list at
every comma, keeping empty pieces (so the empty string yields one empty piece). -/
def splitComma : List Char → List (List Char)
  | [] => [[]]
  | c :: rest =>
    match splitComma rest with
    | [] => [[]]
    | t :: ts => if c = ',' then [] :: t :: ts else (c :: t) :: ts

/-- Python ", ".join on character-list pieces. -/
def joinCommaSpace : List (List Char) → List Char
  | [] => []
  | [t] => t
  | t :: u :: ts => t ++ (',' :: ' ' :: joinCommaSpace (u :: ts))

/-- Everything after the first occurrence of pat, or none when pat is absent. -/
def afterFirst (pat : List Char) : List Char → Option (List Char)
  | [] => none
  | c :: rest =>
    if pat.isPrefixOf (c :: rest) then some ((c :: rest).drop pat.length)
    else afterFirst pat rest

/-- The fixed keyword list of recipe_bot.py lines 150-160. -/
def cooking_words : List String :=
  ["cook", "heat", "add", "mix", "stir", "serve", "bake", "fry", "boil"]

/-- Lines 141-165: the recipe validator heuristic. -/
def is_valid_recipe (text : String) : Bool :=
  if text.length < 100 then false
  else
    let text_lower := pyLower text
    let has_ingredients :=
      strContains text_lower "ingredients:" || strContains text_lower "ingredient"
    let has_instructions :=
      strContains text_lower "instructions:" || strContains text_lower "instruction"
    let has_cooking_actions :=
      decide (2 ≤ (cooking_words.filter (fun w => strContains text_lower w)).length)
    (has_ingredients || has_instructions) && has_cooking_actions

/-- Lines 72-73: split the input on commas, strip each token, rejoin with a comma
and a space. -/
def canonical_ingredients (ingredients : String) : String :=
  String.mk (joinCommaSpace ((splitComma ingredients.toList).map pyStrip))

/-- Lines 75-76: the fixed instruction prompt template. -/
def recipe_prompt (ingredients_text : String) : String :=
  "<s>[INST] Suggest a recipe using the following ingredients:\n"
    ++ ingredients_text ++ " [/INST]"

/-- Lines 104-107: everything after the first instruction-closing delimiter,
stripped; the whole response stripped when the delimiter is absent. -/
def extract_recipe_text (full_response : String) : String :=
  match afterFirst ("[/INST]").toList full_response.toList with
  | some t => String.mk (pyStrip t)
  | none => String.mk (pyStrip full_response.toList)

/-- Lines 68-139: generate_recipe.  The tokenizer/model generation step (lines
80-102) is the Generation Collaborator, modelled as a function from the prompt to
either a raised exception message (Except.error) or the decoded full response
(Except.ok).  Both fallback branches call self.get_recipe_by_keywords, which no
code in the repository defines, so they raise AttributeError: the one raised
inside the try block (line 114) is caught at line 130 and, use_fallback being
true on that path, re-triggered at line 133 outside any handler. -/
def generate_recipe (gen : String → Except String String) (ingredients : String)
    (use_fallback : Bool) : Except PyErr Outcome :=
  let ingredients_text := canonical_ingredients ingredients
  match gen (recipe_prompt ingredients_text) with
  | Except.error e =>
      if use_fallback then Except.error (PyErr.attributeError "get_recipe_by_keywords")
      else Except.ok ⟨false, ingredients, none, some e⟩
  | Except.ok full_response =>
      let recipe_text := extract_recipe_text full_response
      if is_valid_recipe recipe_text then
        Except.ok ⟨true, ingredients_text, some recipe_text, none⟩
      else if use_fallback then
        Except.error (PyErr.attributeError "get_recipe_by_keywords")
      else Except.ok ⟨false, ingredients_text, none, some "Generated invalid recipe"⟩

/-- The validator acceptance condition as the specification words it: length at
least 100, a case-insensitive mention of ingredient or instruction, and at least
two distinct cooking-action keywords present. -/
def valid_recipe_spec (text : String) : Prop :=
  100 ≤ text.length ∧
  (strContains (pyLower text) "ingredient" = true ∨
    strContains (pyLower text) "instruction" = true) ∧
  2 ≤ (cooking_words.filter (fun w => strContains (pyLower text) w)).length

/-- A 150-character text containing an ingredients and an instructions mention
with the cooking words heat and stir. -/
def sample150 : String :=
  "A simple dish. ingredients: eggs. instructions: heat, stir."
    ++ String.mk (List.replicate 91 (Char.ofNat 122))

/-- A 200-character text mentioning ingredients but containing only one cooking
word (mix). -/
def sample200 : String :=
  "This text mentions ingredients and the word mix but nothing else useful."
    ++ String.mk (List.replicate 128 (Char.ofNat 122))

/-- A generation collaborator for concrete runs that always raises. -/
def genConstErr : String → Except String String := fun _ => Except.error "x"

/-- A generation collaborator for concrete runs that raises exactly on the
canonical egg-and-onions prompt and succeeds elsewhere. -/
def genPromptOnly : String → Except String String := fun p =>
  if p = recipe_prompt (canonical_ingredients "egg, onions") then Except.error "x"
  else Except.ok "y"

end RecipeBot

namespace RatOps

lemma num_eq_mul_den (a : ℚ) : (a.num : ℚ) = a * a.den := by
  have h := Rat.num_div_den a
  rw [div_eq_iff (by positivity : ((a.den : ℚ)) ≠ 0)] at h
  exact h

lemma ratMul_eq (a b : ℚ) : ratMul a b = a * b := by
  rw [ratMul, Rat.mkRat_eq_div]
  push_cast
  rw [div_eq_iff (by positivity : ((a.den : ℚ)) * b.den ≠ 0), num_eq_mul_den,
    num_eq_mul_den]
  ring

lemma ratAdd_eq (a b : ℚ) : ratAdd a b = a + b := by
  rw [ratAdd, Rat.mkRat_eq_div]
  push_cast
  rw [div_eq_iff (by positivity : ((a.den : ℚ)) * b.den ≠ 0), num_eq_mul_den,
    num_eq_mul_den]
  ring

lemma ratMulNat_eq (a : ℚ) (n : ℕ) : ratMulNat a n = a * n := by
  rw [ratMulNat, Rat.mkRat_eq_div]
  push_cast
  rw [div_eq_iff (by positivity : ((a.den : ℚ)) ≠ 0), num_eq_mul_den]
  ring

lemma ratDivNat_eq (a : ℚ) (n : ℕ) : ratDivNat a n = a / n := by
  rw [ratDivNat, Rat.mkRat_eq_div]
  push_cast
  rw [← div_div, Rat.num_div_den]

/-- The integer base used by rint is the floor of its argument. -/
lemma rint_fdiv_floor (q : ℚ) : Int.fdiv q.num q.den = ⌊q⌋ := by
  rw [Int.fdiv_eq_ediv _ (by positivity), Rat.floor_def]

/-- Characterisation of rint through the fractional part of its argument. -/
lemma rint_spec (q : ℚ) :
    rint q = if q - ⌊q⌋ < 1/2 then ⌊q⌋
      else if 1/2 < q - ⌊q⌋ then ⌊q⌋ + 1
      else if ⌊q⌋ % 2 = 0 then ⌊q⌋ else ⌊q⌋ + 1 := by
  have hden : (0 : ℚ) < (q.den : ℚ) := by positivity
  have hq : (q.num : ℚ) = q * q.den := num_eq_mul_den q
  have h1 : (2 * (q.num - ⌊q⌋ * q.den) < (q.den : ℤ)) ↔ q - ⌊q⌋ < 1/2 := by
    rw [← @Int.cast_lt ℚ]
    push_cast
    constructor <;> intro h <;> nlinarith [h, hq, hden]
  have h2 : ((q.den : ℤ) < 2 * (q.num - ⌊q⌋ * q.den)) ↔ 1/2 < q - ⌊q⌋ := by
    rw [← @Int.cast_lt ℚ]
    push_cast
    constructor <;> intro h <;> nlinarith [h, hq, hden]
  rw [rint]
  rw [rint_fdiv_floor]
  rw [if_congr h1 rfl rfl, if_congr h2 rfl rfl]

/-- rint never exceeds the floor by more than one. -/
lemma rint_le_floor_add_one (q : ℚ) : rint q ≤ ⌊q⌋ + 1 := by
  rw [rint_spec]
  split_ifs <;> omega

/-- rint is at least the floor. -/
lemma floor_le_rint (q : ℚ) : ⌊q⌋ ≤ rint q := by
  rw [rint_spec]
  split_ifs <;> omega

/-- rint is monotone. -/
lemma rint_mono {a b : ℚ} (h : a ≤ b) : rint a ≤ rint b := by
  have hfab : ⌊a⌋ ≤ ⌊b⌋ := Int.floor_le_floor h
  rcases lt_or_eq_of_le hfab with hf | hf
  · calc rint a ≤ ⌊a⌋ + 1 := rint_le_floor_add_one a
      _ ≤ ⌊b⌋ := by omega
      _ ≤ rint b := floor_le_rint b
  · have hcast : ((⌊a⌋ : ℚ)) = ((⌊b⌋ : ℚ)) := by exact_mod_cast hf
    have hd : a - ⌊a⌋ ≤ b - ⌊b⌋ := by
      rw [← hcast]
      linarith
    rw [rint_spec, rint_spec, ← hf]
    split_ifs <;> first | omega | linarith

end RatOps

namespace NameMatching

open RatOps

/-- round3 is rounding to three decimal digits. -/
lemma round3_eq (q : ℚ) : round3 q = (rint (q * 1000) : ℚ) / 1000 := by
  rw [round3, Rat.mkRat_eq_div, ratMulNat_eq]
  norm_num

/-- round3 is monotone. -/
lemma round3_mono {a b : ℚ} (h : a ≤ b) : round3 a ≤ round3 b := by
  rw [round3_eq, round3_eq]
  have h1 := rint_mono (mul_le_mul_of_nonneg_right h (by norm_num : (0 : ℚ) ≤ 1000))
  have hc : ((rint (a * 1000) : ℚ)) ≤ (rint (b * 1000) : ℚ) := Int.cast_le.mpr h1
  linarith

/-- The ascending argsort output is sorted for the lexicographic
(score, index) key. -/
lemma argsort_sorted (scores : List ℚ) :
    (argsort scores).Pairwise (fun i j =>
      scores.getD i 0 < scores.getD j 0 ∨
        (scores.getD i 0 = scores.getD j 0 ∧ i ≤ j)) := by
  haveI ht : IsTotal ℕ (fun i j => scores.getD i 0 < scores.getD j 0 ∨
      (scores.getD i 0 = scores.getD j 0 ∧ i ≤ j)) := by
    constructor
    intro a b
    rcases lt_trichotomy (scores.getD a 0) (scores.getD b 0) with h | h | h
    · exact Or.inl (Or.inl h)
    · rcases Nat.le_total a b with hab | hab
      · exact Or.inl (Or.inr ⟨h, hab⟩)
      · exact Or.inr (Or.inr ⟨h.symm, hab⟩)
    · exact Or.inr (Or.inl h)
  haveI htr : IsTrans ℕ (fun i j => scores.getD i 0 < scores.getD j 0 ∨
      (scores.getD i 0 = scores.getD j 0 ∧ i ≤ j)) := by
    constructor
    intro a b c hab hbc
    rcases hab with h | ⟨he, hl⟩
    · rcases hbc with h2 | ⟨he2, hl2⟩
      · exact Or.inl (h.trans h2)
      · exact Or.inl (he2 ▸ h)
    · rcases hbc with h2 | ⟨he2, hl2⟩
      · exact Or.inl (he ▸ h2)
      · exact Or.inr ⟨he.trans he2, hl.trans hl2⟩
  unfold argsort
  exact List.sorted_insertionSort _ _

/-- The ascending argsort output is a permutation of the index range. -/
lemma argsort_perm (scores : List ℚ) :
    (argsort scores).Perm (List.range scores.length) :=
  List.perm_insertionSort _ _

/-- Every index placed by sorted_indices addresses the score array. -/
lemma sorted_indices_mem_lt (encode : String → List ℚ) (cos : List ℚ → List ℚ → ℚ)
    (fuzz : String → String → ℚ) (s : MatcherState) (input_name : String) {i : ℕ}
    (h : i ∈ sorted_indices encode cos fuzz s input_name) :
    i < (combined_scores encode cos fuzz s input_name).length := by
  rw [sorted_indices, List.mem_reverse] at h
  exact List.mem_range.mp ((argsort_perm _).mem_iff.mp h)

/-- sorted_indices is ordered: strictly descending combined score, or equal
combined score with strictly descending catalog index. -/
lemma sorted_indices_pairwise (encode : String → List ℚ) (cos : List ℚ → List ℚ → ℚ)
    (fuzz : String → String → ℚ) (s : MatcherState) (input_name : String) :
    (sorted_indices encode cos fuzz s input_name).Pairwise (fun a b =>
      (combined_scores encode cos fuzz s input_name).getD b 0 <
        (combined_scores encode cos fuzz s input_name).getD a 0 ∨
      ((combined_scores encode cos fuzz s input_name).getD a 0 =
          (combined_scores encode cos fuzz s input_name).getD b 0 ∧ b < a)) := by
  rw [sorted_indices, List.pairwise_reverse]
  have h1 := argsort_sorted (combined_scores encode cos fuzz s input_name)
  have hnd : (argsort (combined_scores encode cos fuzz s input_name)).Nodup :=
    ((argsort_perm _).nodup_iff).mpr (List.nodup_range _)
  refine (h1.and hnd).imp ?_
  intro a b hab
  rcases hab with ⟨h | ⟨he, hle⟩, hne⟩
  · exact Or.inl h
  · exact Or.inr ⟨he.symm, lt_of_le_of_ne hle hne⟩

/-- The length of the combined-score array equals the catalog size for any
state the constructor builds. -/
lemma combined_scores_length (encode : String → List ℚ) (cos : List ℚ → List ℚ → ℚ)
    (fuzz : String → String → ℚ) (names : List String) (input_name : String) :
    (combined_scores encode cos fuzz (matcherInit encode names) input_name).length
      = names.length := by
  simp [combined_scores, semantic_scores, fuzzy_scores, matcherInit]

/-- sorted_indices enumerates as many indices as there are combined scores. -/
lemma sorted_indices_length (encode : String → List ℚ) (cos : List ℚ → List ℚ → ℚ)
    (fuzz : String → String → ℚ) (s : MatcherState) (input_name : String) :
    (sorted_indices encode cos fuzz s input_name).length
      = (combined_scores encode cos fuzz s input_name).length := by
  rw [sorted_indices, List.length_reverse, (argsort_perm _).length_eq,
    List.length_range]

/-- all_matches has min(top_k, number of scores) entries. -/
lemma all_matches_of_length (encode : String → List ℚ) (cos : List ℚ → List ℚ → ℚ)
    (fuzz : String → String → ℚ) (s : MatcherState) (input_name : String)
    (top_k : ℕ) :
    (all_matches_of encode cos fuzz s input_name top_k).length
      = min top_k (combined_scores encode cos fuzz s input_name).length := by
  rw [all_matches_of, List.length_map, List.length_take, sorted_indices_length]

/-- The match scores listed by all_matches never increase. -/
lemma all_matches_of_pairwise (encode : String → List ℚ) (cos : List ℚ → List ℚ → ℚ)
    (fuzz : String → String → ℚ) (s : MatcherState) (input_name : String)
    (top_k : ℕ) :
    (all_matches_of encode cos fuzz s input_name top_k).Pairwise
      (fun m1 m2 => m2.score ≤ m1.score) := by
  rw [all_matches_of, List.pairwise_map]
  refine ((sorted_indices_pairwise encode cos fuzz s input_name).sublist
    (List.take_sublist _ _)).imp ?_
  intro a b hab
  show round3 ((combined_scores encode cos fuzz s input_name).getD b 0) ≤
    round3 ((combined_scores encode cos fuzz s input_name).getD a 0)
  rcases hab with h | ⟨he, hlt⟩
  · exact round3_mono h.le
  · exact round3_mono he.symm.le

/-- A combined score is the 0.6/0.4 weighting of the semantic and fuzzy scores
at the same index. -/
lemma combined_scores_getD (encode : String → List ℚ) (cos : List ℚ → List ℚ → ℚ)
    (fuzz : String → String → ℚ) (s : MatcherState) (input_name : String) {idx : ℕ}
    (h : idx < (combined_scores encode cos fuzz s input_name).length) :
    (combined_scores encode cos fuzz s input_name).getD idx 0 =
      (6/10 : ℚ) * (semantic_scores encode cos s input_name).getD idx 0 +
        (4/10 : ℚ) * (fuzzy_scores fuzz s input_name).getD idx 0 := by
  have h6 : (mkRat 6 10 : ℚ) = 6/10 := by
    rw [Rat.mkRat_eq_div]
    norm_num
  have h4 : (mkRat 4 10 : ℚ) = 4/10 := by
    rw [Rat.mkRat_eq_div]
    norm_num
  have hlen := h
  rw [combined_scores, List.length_zipWith, lt_inf_iff] at hlen
  rw [List.getD_eq_getElem _ _ h, List.getD_eq_getElem _ _ hlen.1,
    List.getD_eq_getElem _ _ hlen.2]
  simp only [combined_scores, List.getElem_zipWith]
  rw [ratAdd_eq, ratMul_eq, ratMul_eq]
  simp only [h6, h4]

/-- C2 (amended): sorted_indices — and with it the match list, which is its
image under match_at — is ordered by strictly descending combined score, with
ties between equal combined scores ordered by strictly descending catalog
index, i.e. equal-score candidates appear in reverse catalog order because the
ascending stable argsort is reversed wholesale. -/
theorem matches_sorted_ties_reverse_catalog (encode : String → List ℚ)
    (cos : List ℚ → List ℚ → ℚ) (fuzz : String → String → ℚ) (s : MatcherState)
    (input_name : String) (top_k : ℕ) :
    (sorted_indices encode cos fuzz s input_name).Pairwise (fun a b =>
      (combined_scores encode cos fuzz s input_name).getD b 0 <
        (combined_scores encode cos fuzz s input_name).getD a 0 ∨
      ((combined_scores encode cos fuzz s input_name).getD a 0 =
          (combined_scores encode cos fuzz s input_name).getD b 0 ∧ b < a)) ∧
    all_matches_of encode cos fuzz s input_name top_k =
      ((sorted_indices encode cos fuzz s input_name).take top_k).map
        (match_at encode cos fuzz s input_name) :=
  ⟨sorted_indices_pairwise encode cos fuzz s input_name, rfl⟩

/-- C2 (counterexample): on a two-name catalog where both candidates receive
the same combined score, the returned matches list the second catalog entry
first, not the original catalog order the claim asserts. -/
theorem tie_order_counterexample :
    (combined_scores encZ cosHalf fuzzHalf tieState "Ann").getD 0 0 =
      (combined_scores encZ cosHalf fuzzHalf tieState "Ann").getD 1 0 ∧
    tieState.names = ["Ann", "Bob"] ∧
    (find_similar_names encZ cosHalf fuzzHalf tieState "Ann" 5).map
      (fun r => r.all_matches.map NMatch.name) = some ["Bob", "Ann"] :=
  ⟨by decide, rfl, by decide⟩

/-- C4: every reported match carries the round3-rounded semantic and fuzzy
scores of its catalog index, and its combined score is round3 of 0.6 times the
semantic score plus 0.4 times the fuzzy score of that index. -/
theorem combined_score_weighted (encode : String → List ℚ)
    (cos : List ℚ → List ℚ → ℚ) (fuzz : String → String → ℚ) (s : MatcherState)
    (input_name : String) (top_k : ℕ) :
    ∀ m ∈ all_matches_of encode cos fuzz s input_name top_k,
      ∃ idx, idx < (combined_scores encode cos fuzz s input_name).length ∧
        m = match_at encode cos fuzz s input_name idx ∧
        m.score = round3 ((6/10 : ℚ) *
            (semantic_scores encode cos s input_name).getD idx 0 +
          (4/10 : ℚ) * (fuzzy_scores fuzz s input_name).getD idx 0) ∧
        m.semantic_score = round3 ((semantic_scores encode cos s input_name).getD idx 0) ∧
        m.fuzzy_score = round3 ((fuzzy_scores fuzz s input_name).getD idx 0) := by
  intro m hm
  rw [all_matches_of, List.mem_map] at hm
  obtain ⟨i, hi, rfl⟩ := hm
  have hlt : i < (combined_scores encode cos fuzz s input_name).length :=
    sorted_indices_mem_lt encode cos fuzz s input_name (List.mem_of_mem_take hi)
  refine ⟨i, hlt, rfl, ?_, rfl, rfl⟩
  show round3 ((combined_scores encode cos fuzz s input_name).getD i 0) = _
  rw [combined_scores_getD encode cos fuzz s input_name hlt]

/-- C4 (witness): the weighted-score decomposition instantiated on the concrete
two-name catalog run. -/
theorem combined_score_weighted_witness :
    ∃ idx, idx < (combined_scores encZ cosHalf fuzzHalf tieState "Ann").length ∧
      (⟨"Bob", mkRat 1 2, mkRat 1 2, mkRat 1 2⟩ : NMatch) =
        match_at encZ cosHalf fuzzHalf tieState "Ann" idx ∧
      (⟨"Bob", mkRat 1 2, mkRat 1 2, mkRat 1 2⟩ : NMatch).score =
        round3 ((6/10 : ℚ) * (semantic_scores encZ cosHalf tieState "Ann").getD idx 0 +
          (4/10 : ℚ) * (fuzzy_scores fuzzHalf tieState "Ann").getD idx 0) ∧
      (⟨"Bob", mkRat 1 2, mkRat 1 2, mkRat 1 2⟩ : NMatch).semantic_score =
        round3 ((semantic_scores encZ cosHalf tieState "Ann").getD idx 0) ∧
      (⟨"Bob", mkRat 1 2, mkRat 1 2, mkRat 1 2⟩ : NMatch).fuzzy_score =
        round3 ((fuzzy_scores fuzzHalf tieState "Ann").getD idx 0) :=
  combined_score_weighted encZ cosHalf fuzzHalf tieState "Ann" 5
    ⟨"Bob", mkRat 1 2, mkRat 1 2, mkRat 1 2⟩ (by decide)

/-- C5 (amended): for a non-empty query, a positive top_k and a non-empty
catalog, find_similar_names returns a response whose all_matches has exactly
min(top_k, catalog size) entries and whose reported scores never increase. -/
theorem all_matches_length_sorted (encode : String → List ℚ)
    (cos : List ℚ → List ℚ → ℚ) (fuzz : String → String → ℚ) (names : List String)
    (input_name : String) (top_k : ℕ) (_hq : input_name ≠ "") (hk : 1 ≤ top_k)
    (hn : names ≠ []) :
    ∃ r, find_similar_names encode cos fuzz (matcherInit encode names) input_name
        top_k = some r ∧
      r.all_matches.length = min top_k names.length ∧
      r.all_matches.Pairwise (fun m1 m2 => m2.score ≤ m1.score) := by
  have hlen : (all_matches_of encode cos fuzz (matcherInit encode names) input_name
      top_k).length = min top_k names.length := by
    rw [all_matches_of_length, combined_scores_length]
  have hpos : 0 < min top_k names.length := by
    have : 0 < names.length := List.length_pos.mpr hn
    omega
  cases hA : all_matches_of encode cos fuzz (matcherInit encode names) input_name top_k with
  | nil =>
    rw [hA] at hlen
    simp at hlen
    omega
  | cons m rest =>
    refine ⟨⟨⟨m.name, m.score⟩, m :: rest⟩, ?_, ?_, ?_⟩
    · simp only [find_similar_names, hA]
    · rw [← hA, hlen]
    · rw [← hA]
      exact all_matches_of_pairwise encode cos fuzz _ input_name top_k

/-- C5 (witness): the length-and-order contract instantiated on the concrete
two-name catalog. -/
theorem all_matches_length_sorted_witness :
    ∃ r, find_similar_names encZ cosHalf fuzzHalf (matcherInit encZ ["Ann", "Bob"])
        "Gita" 3 = some r ∧
      r.all_matches.length = min 3 (["Ann", "Bob"] : List String).length ∧
      r.all_matches.Pairwise (fun m1 m2 => m2.score ≤ m1.score) :=
  all_matches_length_sorted encZ cosHalf fuzzHalf ["Ann", "Bob"] "Gita" 3
    (by decide) (by decide) (by decide)

/-- C5 (counterexample): with top_k = 0 the function raises IndexError at
all_matches[0] instead of returning a response of length min(0, 2) = 0. -/
theorem topk_zero_counterexample :
    find_similar_names encZ cosHalf fuzzHalf tieState "Gita" 0 = none ∧
    ¬ ∃ r, find_similar_names encZ cosHalf fuzzHalf tieState "Gita" 0 = some r := by
  refine ⟨rfl, ?_⟩
  rintro ⟨r, hr⟩
  exact Option.noConfusion (show (none : Option RankedResponse) = some r from hr)

/-- C6: whenever find_similar_names returns, best_match carries exactly the
name and score of the first entry of all_matches. -/
theorem best_match_first (encode : String → List ℚ) (cos : List ℚ → List ℚ → ℚ)
    (fuzz : String → String → ℚ) (s : MatcherState) (input_name : String)
    (top_k : ℕ) (r : RankedResponse)
    (h : find_similar_names encode cos fuzz s input_name top_k = some r) :
    ∃ m rest, r.all_matches = m :: rest ∧ r.best_match = ⟨m.name, m.score⟩ := by
  unfold find_similar_names at h
  cases hA : all_matches_of encode cos fuzz s input_name top_k with
  | nil =>
    rw [hA] at h
    exact absurd h (by simp)
  | cons m rest =>
    rw [hA] at h
    refine ⟨m, rest, ?_, ?_⟩
    · rw [← Option.some.inj h]
    · rw [← Option.some.inj h]

/-- C6 (witness): the best-match contract instantiated on the concrete
two-name catalog run. -/
theorem best_match_first_witness :
    ∃ m rest, tieResponse.all_matches = m :: rest ∧
      tieResponse.best_match = ⟨m.name, m.score⟩ :=
  best_match_first encZ cosHalf fuzzHalf tieState "Ann" 5 tieResponse (by decide)

/-- C9: with the embedding collaborator a fixed function, running
find_similar_names leaves the matcher state — catalog and precomputed
embeddings — unchanged, and a second run on the state left by the first
returns the identical response. -/
theorem ranker_deterministic_no_mutation (encode : String → List ℚ)
    (cos : List ℚ → List ℚ → ℚ) (fuzz : String → String → ℚ) (s : MatcherState)
    (input_name : String) (top_k : ℕ) :
    (find_similar_names_st encode cos fuzz s input_name top_k).2 = s ∧
    (find_similar_names_st encode cos fuzz
        ((find_similar_names_st encode cos fuzz s input_name top_k).2)
        input_name top_k).1 =
      (find_similar_names_st encode cos fuzz s input_name top_k).1 :=
  ⟨rfl, rfl⟩

end NameMatching

namespace RecipeBot

lemma isPrefixOf_append_left (a b l : List Char)
    (h : (a ++ b).isPrefixOf l = true) : a.isPrefixOf l = true :=
  List.isPrefixOf_iff_prefix.mpr
    ((List.prefix_append a b).trans (List.isPrefixOf_iff_prefix.mp h))

lemma occursIn_append_left (a b : List Char) (l : List Char)
    (h : occursIn (a ++ b) l = true) : occursIn a l = true := by
  induction l with
  | nil =>
    simp only [occursIn, List.isEmpty_iff, List.append_eq_nil] at h ⊢
    exact h.1
  | cons c rest ih =>
    simp only [occursIn, Bool.or_eq_true] at h ⊢
    rcases h with h | h
    · exact Or.inl (isPrefixOf_append_left _ _ _ h)
    · exact Or.inr (ih h)

lemma strContains_ingredient {low : String}
    (h : strContains low "ingredients:" = true) :
    strContains low "ingredient" = true := by
  have he : ("ingredients:").toList = ("ingredient").toList ++ [.ofNat 115, .ofNat 58] := rfl
  unfold strContains at h ⊢
  rw [he] at h
  exact occursIn_append_left _ _ _ h

lemma strContains_instruction {low : String}
    (h : strContains low "instructions:" = true) :
    strContains low "instruction" = true := by
  have he : ("instructions:").toList = ("instruction").toList ++ [.ofNat 115, .ofNat 58] := rfl
  unfold strContains at h ⊢
  rw [he] at h
  exact occursIn_append_left _ _ _ h

set_option maxRecDepth 20000 in
/-- C3: the validator accepts exactly the texts of length at least 100 that
mention ingredient or instruction case-insensitively and contain at least two
distinct cooking keywords; the 150-character sample with ingredients, heat and
stir is accepted, every text shorter than 100 characters is rejected, and the
200-character sample whose only cooking word is mix is rejected. -/
theorem validator_characterisation :
    (∀ text, is_valid_recipe text = true ↔ valid_recipe_spec text) ∧
    (sample150.length = 150 ∧ is_valid_recipe sample150 = true) ∧
    (∀ text, text.length < 100 → is_valid_recipe text = false) ∧
    (sample200.length = 200 ∧ is_valid_recipe sample200 = false) := by
  refine ⟨?_, ⟨by decide, by decide⟩, ?_, ⟨by decide, by decide⟩⟩
  · intro text
    by_cases hl : text.length < 100
    · simp only [is_valid_recipe, if_pos hl]
      constructor
      · intro h
        exact absurd h (by simp)
      · rintro ⟨h100, -⟩
        omega
    · simp only [is_valid_recipe, if_neg hl, Bool.and_eq_true, Bool.or_eq_true,
        decide_eq_true_eq, valid_recipe_spec]
      constructor
      · rintro ⟨hing, hcnt⟩
        refine ⟨by omega, ?_, hcnt⟩
        rcases hing with (h | h) | (h | h)
        · exact Or.inl (strContains_ingredient h)
        · exact Or.inl h
        · exact Or.inr (strContains_instruction h)
        · exact Or.inr h
      · rintro ⟨-, hing, hcnt⟩
        refine ⟨?_, hcnt⟩
        rcases hing with h | h
        · exact Or.inl (Or.inr h)
        · exact Or.inr (Or.inr h)
  · intro text hlt
    simp only [is_valid_recipe, if_pos hlt]

/-- C3 (witness): the validator characterisation applied to concrete texts. -/
theorem validator_characterisation_witness :
    is_valid_recipe "too short" = false ∧
    (is_valid_recipe sample150 = true ↔ valid_recipe_spec sample150) :=
  ⟨validator_characterisation.2.2.1 "too short" (by decide),
   validator_characterisation.1 sample150⟩

/-- C1: when the Generation Collaborator raises and fallback is enabled, the
code does not produce the success/FALLBACK outcome the claim describes — it
raises an AttributeError for the undefined get_recipe_by_keywords; with
fallback disabled it returns the failure outcome carrying the original
message. -/
theorem generation_error_resolution :
    generate_recipe (fun _ => Except.error "boom") "egg, onions" true =
      Except.error (PyErr.attributeError "get_recipe_by_keywords") ∧
    generate_recipe (fun _ => Except.error "boom") "egg, onions" false =
      Except.ok ⟨false, "egg, onions", none, some "boom"⟩ :=
  ⟨rfl, rfl⟩

/-- C7: every outcome dict generate_recipe actually returns has a non-null
recipe and null error when success is true, and a null recipe with non-null
error when success is false. -/
theorem outcome_excl (gen : String → Except String String) (ingredients : String)
    (use_fallback : Bool) (o : Outcome)
    (h : generate_recipe gen ingredients use_fallback = Except.ok o) :
    (o.success = true → o.recipe ≠ none ∧ o.error = none) ∧
    (o.success = false → o.recipe = none ∧ o.error ≠ none) := by
  unfold generate_recipe at h
  rcases hg : gen (recipe_prompt (canonical_ingredients ingredients)) with e | t <;>
    simp only [hg] at h
  · split_ifs at h with hf
    · cases h
      simp
  · split_ifs at h with hv hf
    · cases h
      simp
    · cases h
      simp

/-- C7 (witness): the outcome invariant applied to the concrete failure
outcome of a raising collaborator with fallback disabled. -/
theorem outcome_excl_witness :
    ((⟨false, "egg, onions", none, some "boom"⟩ : Outcome).success = true →
      (⟨false, "egg, onions", none, some "boom"⟩ : Outcome).recipe ≠ none ∧
      (⟨false, "egg, onions", none, some "boom"⟩ : Outcome).error = none) ∧
    ((⟨false, "egg, onions", none, some "boom"⟩ : Outcome).success = false →
      (⟨false, "egg, onions", none, some "boom"⟩ : Outcome).recipe = none ∧
      (⟨false, "egg, onions", none, some "boom"⟩ : Outcome).error ≠ none) :=
  outcome_excl (fun _ => Except.error "boom") "egg, onions" false
    ⟨false, "egg, onions", none, some "boom"⟩ rfl

/-- C8: generate_recipe consults the Generation Collaborator only at the fixed
prompt embedding the canonical comma-joined trimmed ingredient string — two
collaborators agreeing on that one prompt produce identical results — and the
canonical string of the input egg-comma-space-onions is egg-comma-space-onions. -/
theorem prompt_embeds_canonical (ingredients : String) (use_fallback : Bool)
    (g g2 : String → Except String String)
    (h : g (recipe_prompt (canonical_ingredients ingredients)) =
      g2 (recipe_prompt (canonical_ingredients ingredients))) :
    generate_recipe g ingredients use_fallback =
      generate_recipe g2 ingredients use_fallback ∧
    canonical_ingredients "egg, onions" = "egg, onions" := by
  constructor
  · simp only [generate_recipe]
    rw [h]
  · decide

/-- C8 (witness): two collaborators agreeing on the canonical egg-and-onions
prompt yield the same result there. -/
theorem prompt_embeds_canonical_witness :
    generate_recipe genConstErr "egg, onions" true =
      generate_recipe genPromptOnly "egg, onions" true ∧
    canonical_ingredients "egg, onions" = "egg, onions" :=
  prompt_embeds_canonical "egg, onions" true genConstErr genPromptOnly
    (by simp [genConstErr, genPromptOnly])

/-- C10: with fallback enabled, whenever generation raises or the generated
text fails validation, generate_recipe ends in the AttributeError for the
undefined get_recipe_by_keywords instead of returning an outcome dict. -/
theorem fallback_raises (gen : String → Except String String) (ingredients : String)
    (h : (∃ e, gen (recipe_prompt (canonical_ingredients ingredients)) =
        Except.error e) ∨
      (∃ t, gen (recipe_prompt (canonical_ingredients ingredients)) = Except.ok t ∧
        is_valid_recipe (extract_recipe_text t) = false)) :
    generate_recipe gen ingredients true =
      Except.error (PyErr.attributeError "get_recipe_by_keywords") := by
  rcases h with ⟨e, he⟩ | ⟨t, ht, hv⟩
  · simp [generate_recipe, he]
  · simp [generate_recipe, ht, hv]

/-- C10 (witness): the AttributeError escape on a concretely raising
collaborator. -/
theorem fallback_raises_witness :
    generate_recipe (fun _ => Except.error "x") "egg, onions" true =
      Except.error (PyErr.attributeError "get_recipe_by_keywords") :=
  fallback_raises (fun _ => Except.error "x") "egg, onions" (Or.inl ⟨"x", rfl⟩)

end RecipeBot
